import Mathlib

/-!
# Bingo chatbot core pipeline — shallow embedding and verification

This file embeds the four-stage classification-and-routing pipeline of the
Bingo chatbot (normalization, intent scoring, strategy routing, response
assembly) as executable Lean definitions, translated from:

* `backend/utils/preprocess.js`       — the Normalizer (`preprocess`)
* `backend/services/intentDetector.js`— the IntentScorer (`detectIntent`,
  `scoreIntent`, `findBestIntent`)
* the intent router module            — the Router (`routeIntent`,
  `isSafeIntent`, `determineConfidenceLevel`, `SAFE_INTENTS`,
  `CONFIDENCE_THRESHOLDS`)
* the response generator module       — the ResponseAssembler
  (`generateResponse`, `findIntentInKnowledgeBase`, `selectRandomResponse`)

Modelling conventions:

* JavaScript numbers are modelled as exact rationals (`ℚ`); every confidence
  produced by the pipeline is a ratio of two small naturals, and the routing
  thresholds are the decimal literals 0.7 / 0.4, so all comparisons performed
  by the code are exact at these magnitudes.
* `String.prototype.includes` is modelled as list-infix containment on the
  character data of the strings.
* A JavaScript plain object used as a string-keyed dictionary (`allScores`,
  `allMatches`) is modelled as an insertion-ordered association list with
  overwrite-on-duplicate-key assignment (`objSet`), which is exactly the
  enumeration order `for (const k in obj)` uses for non-index string keys.
* The `console.log` calls, the ISO timestamp and the two free-text
  explanation strings built by the router/assembler are pure decoration
  carried alongside the decision fields; no claim concerns them and the
  timestamp is IO, so the embedded records keep every decision-bearing field
  and omit only `detectionExplanation` / `routingExplanation` /
  `explainability` / `timestamp`.
* The asynchronous AI-collaborator call in the assembler is modelled by
  passing the outcome of the call (a structured result, or a thrown
  exception) as an explicit argument; randomness in response selection is
  modelled by an injectable natural-number random seed.
-/

namespace Bingo

/-- An intent record of `knowledge.json`: a name (the `intent` field), a list
of literal substring patterns and a list of canned responses. -/
structure Intent where
  intent : String
  patterns : List String
  responses : List String
deriving Repr, DecidableEq

/-- The knowledge base: an ordered list of intent records. -/
structure KnowledgeBase where
  intents : List Intent
deriving Repr, DecidableEq

/-- Model of `message.includes(pattern)` from `scoreIntent`: is `pattern` a contiguous
substring of `message`?  Modelled as infix containment of character lists.
(As in JavaScript, the empty string is a substring of everything.) -/
def includes (message pattern : String) : Bool :=
  decide (pattern.data <:+: message.data)

/-- The result of scoring one intent (`scoreIntent`'s return value). -/
structure ScoreResult where
  confidence : ℚ
  matchedPatterns : List String
deriving Repr, DecidableEq

/-- Model of `scoreIntent(message, intent)` of `intentDetector.js`: walk the intent's
patterns in order, collect those contained in the message, and set
`confidence = matchedCount / totalPatterns`, guarding the zero-pattern case
with an explicit branch exactly as the source does. -/
def scoreIntent (message : String) (intent : Intent) : ScoreResult :=
  let matchedPatterns := intent.patterns.filter (fun p => includes message p)
  let matchedCount := matchedPatterns.length
  let totalPatterns := intent.patterns.length
  let confidence : ℚ :=
    if totalPatterns > 0 then (matchedCount : ℚ) / (totalPatterns : ℚ) else 0
  { confidence := confidence, matchedPatterns := matchedPatterns }

/-- One assignment `obj[k] = v` on a JS plain object modelled as an
insertion-ordered association list: overwrite the existing entry for `k` if
present, otherwise append `(k, v)` at the end. -/
def objSet {α : Type} (l : List (String × α)) (k : String) (v : α) :
    List (String × α) :=
  if l.any (fun kv => kv.1 == k) then
    l.map (fun kv => if kv.1 == k then (k, v) else kv)
  else l ++ [(k, v)]

/-- One iteration of `findBestIntent`'s loop: the running state is
`(highestScore, bestIntent)` and it is updated only when the entry's score is
strictly greater than the running highest. -/
def bestStep (acc : ℚ × Option String) (kv : String × ℚ) : ℚ × Option String :=
  if kv.2 > acc.1 then (kv.2, some kv.1) else acc

/-- Model of `findBestIntent(scores)` of `intentDetector.js`: fold over the score
dictionary in enumeration order keeping `(highestScore, bestIntent)`,
starting from `(0.0, null)` and updating only on a strictly greater score
(so the earliest maximal entry wins and all-zero scores leave `null`). -/
def findBestIntent (scores : List (String × ℚ)) : Option String :=
  (scores.foldl bestStep ((0 : ℚ), (none : Option String))).2

/-- Model of `bestIntent || 'unknown'`: JavaScript's `||` falls through on every falsy
value, so both `null` and the empty string become the sentinel. -/
def jsOrUnknown : Option String → String
  | none => "unknown"
  | some s => if s = "" then "unknown" else s

/-- The detection result produced by `detectIntent` (the free-text
`explanation` is also reproduced, from STEP 4 of the source). -/
structure DetectionResult where
  intent : String
  confidence : ℚ
  matchedPatterns : List String
  allScores : List (String × ℚ)
  explanation : String
deriving Repr, DecidableEq

/-- One iteration of `detectIntent`'s STEP 2 loop over the knowledge base:
score the intent with `scoreIntent` and store its confidence and matched
patterns into the `allScores` / `allMatches` dictionaries. -/
def scoreStep (processedMessage : String)
    (acc : List (String × ℚ) × List (String × List String)) (intent : Intent) :
    List (String × ℚ) × List (String × List String) :=
  let result := scoreIntent processedMessage intent
  (objSet acc.1 intent.intent result.confidence,
   objSet acc.2 intent.intent result.matchedPatterns)

/-- Model of `detectIntent(processedMessage, knowledgeBase)` of `intentDetector.js`:
score every intent into the `allScores` / `allMatches` dictionaries, pick the
best via `findBestIntent`, read its confidence and matches back out of the
dictionaries (`allScores[bestIntent] || 0.0`, `allMatches[bestIntent] || []`)
and fall back to the sentinel `"unknown"` when no intent won. -/
def detectIntent (processedMessage : String) (knowledgeBase : KnowledgeBase) :
    DetectionResult :=
  let scored := knowledgeBase.intents.foldl (scoreStep processedMessage) ([], [])
  let allScores := scored.1
  let allMatches := scored.2
  let bestIntent := findBestIntent allScores
  let bestConfidence := (bestIntent.bind (fun n => allScores.lookup n)).getD 0
  let bestMatches := (bestIntent.bind (fun n => allMatches.lookup n)).getD []
  let explanation :=
    if bestConfidence > 0 then
      "Matched patterns: " ++ String.intercalate ", " bestMatches
    else "No patterns matched"
  { intent := jsOrUnknown bestIntent
    confidence := bestConfidence
    matchedPatterns := bestMatches
    allScores := allScores
    explanation := explanation }

/-- The `SAFE_INTENTS` configuration list of the router module. -/
def SAFE_INTENTS : List String :=
  ["greeting", "bot_identity", "bot_purpose", "farewell", "help", "capabilities"]

/-- Model of `isSafeIntent(intent)`: membership in `SAFE_INTENTS`. -/
def isSafeIntent (intent : String) : Bool :=
  SAFE_INTENTS.contains intent

/-- The `CONFIDENCE_THRESHOLDS` configuration object of the router module. -/
structure Thresholds where
  HIGH : ℚ
  MEDIUM : ℚ
  LOW : ℚ
deriving Repr, DecidableEq

def CONFIDENCE_THRESHOLDS : Thresholds :=
  { HIGH := 0.7, MEDIUM := 0.4, LOW := 0.2 }

/-- Model of `determineConfidenceLevel(confidence)` of the router module. -/
def determineConfidenceLevel (confidence : ℚ) : String :=
  if confidence ≥ CONFIDENCE_THRESHOLDS.HIGH then "high"
  else if confidence ≥ CONFIDENCE_THRESHOLDS.MEDIUM then "medium"
  else "low"

/-- The routing decision produced by `routeIntent` (strategies are the source
strings `"knowledge_base"` / `"ai_fallback"`). -/
structure RoutingDecision where
  strategy : String
  intent : String
  confidence : ℚ
  confidenceLevel : String
  isSafeIntent : Bool
  shouldUseAI : Bool
  matchedPatterns : List String
  allScores : List (String × ℚ)
deriving Repr, DecidableEq

/-- Model of `routeIntent(detectionResult)` of the router module, with its three rules
in source order: RULE 1 `!intent || intent === 'unknown'` (on a string value
`!intent` is true exactly for the empty string) sends unknowns to the AI
fallback; RULE 2 sends safe intents to the knowledge base unconditionally;
RULE 3 compares an escalation intent's confidence against the MEDIUM
threshold. -/
def routeIntent (detectionResult : DetectionResult) : RoutingDecision :=
  let intent := detectionResult.intent
  let confidence := detectionResult.confidence
  let confidenceLevel := determineConfidenceLevel confidence
  let sa : String × Bool :=
    if intent = "" ∨ intent = "unknown" then
      ("ai_fallback", true)
    else if isSafeIntent intent then
      ("knowledge_base", false)
    else if confidence ≥ CONFIDENCE_THRESHOLDS.MEDIUM then
      ("knowledge_base", false)
    else
      ("ai_fallback", true)
  { strategy := sa.1
    intent := intent
    confidence := confidence
    confidenceLevel := confidenceLevel
    isSafeIntent := isSafeIntent intent
    shouldUseAI := sa.2
    matchedPatterns := detectionResult.matchedPatterns
    allScores := detectionResult.allScores }

/-- The structured result the AI collaborator (`aiService.js`) resolves with:
`{success, reply, source, metadata, error}`.  Its `metadata` is an opaque
object (model identity, timing, ...), modelled here as an abstract token; a
missing/undefined metadata is `none`. -/
structure AIResult where
  success : Bool
  reply : String
  source : String
  metadata : Option String
  error : Option String
deriving Repr, DecidableEq

/-- Model of `createErrorResponse(errorMessage, ...)` of `aiService.js`: every failure
path of the collaborator resolves with this record — `success: false`, a
fixed, non-empty friendly fallback reply and a metadata object. -/
def createErrorResponse (errorMessage : String) (metadataToken : String) : AIResult :=
  { success := false
    reply := "I'm having trouble connecting to my AI brain right now. Please try again."
    source := "error_fallback"
    metadata := some metadataToken
    error := some errorMessage }

/-- The outcome of `await callAI(...)` as seen by `generateResponse`'s
`try`/`catch`: either the promise resolves with an `AIResult`, or an
exception escapes the call and lands in the `catch` block. -/
inductive AIOutcome where
  | result (r : AIResult)
  | thrown
deriving Repr, DecidableEq

/-- The response envelope assembled by `generateResponse`.  `aiMetadata`
models the conditional spread `...(aiMetadata && { ai: aiMetadata })`: the
`ai` key is present in the envelope's metadata exactly when this is `some`. -/
structure ResponseEnvelope where
  reply : String
  intent : String
  confidence : ℚ
  confidenceLevel : String
  matchedPatterns : List String
  strategy : String
  responseSource : String
  shouldUseAI : Bool
  isSafeIntent : Bool
  allScores : List (String × ℚ)
  aiMetadata : Option String
deriving Repr, DecidableEq

/-- Model of `findIntentInKnowledgeBase(intentName, knowledgeBase)` of the response
generator: `null` on a falsy name, otherwise the first intent record whose
`intent` field equals the name, or `null` when none matches. -/
def findIntentInKnowledgeBase (intentName : String) (knowledgeBase : KnowledgeBase) :
    Option Intent :=
  if intentName = "" then none
  else knowledgeBase.intents.find? (fun intent => intent.intent == intentName)

/-- Model of `selectRandomResponse(responses)`: a uniformly random pick
`responses[Math.floor(Math.random() * responses.length)]`, modelled with an
injectable random seed reduced mod the length; the guard reply for an
empty/invalid array is reproduced verbatim. -/
def selectRandomResponse (responses : List String) (rand : ℕ) : String :=
  if h : responses.length = 0 then "I'm not sure how to respond. "
  else responses.get ⟨rand % responses.length, Nat.mod_lt _ (Nat.pos_of_ne_zero h)⟩

/-- Model of `generateResponse(routingResult, knowledgeBase, originalMessage)` of the
response generator module.  The strategy dispatch, the knowledge-base branch
(with its found-with-responses test `intentData && intentData.responses &&
intentData.responses.length > 0`), the AI branch with its `success` split and
`catch` handler, and the defensive unknown-strategy branch are reproduced;
the collaborator call's outcome and the random seed are explicit inputs. -/
def generateResponse (routingResult : RoutingDecision) (knowledgeBase : KnowledgeBase)
    (aiOutcome : AIOutcome) (rand : ℕ) : ResponseEnvelope :=
  let gen : String × String × Option String :=
    if routingResult.strategy = "knowledge_base" then
      let kbResponses : Option (List String) :=
        match findIntentInKnowledgeBase routingResult.intent knowledgeBase with
        | some intentData =>
            if intentData.responses.length > 0 then some intentData.responses else none
        | none => none
      match kbResponses with
      | some responses =>
          (selectRandomResponse responses rand, "knowledge_base", none)
      | none =>
          ("I understand what you're asking, but I don't have a response prepared for that yet. ",
           "error_fallback", none)
    else if routingResult.strategy = "ai_fallback" then
      match aiOutcome with
      | AIOutcome.result aiResult =>
          if aiResult.success then
            (aiResult.reply, "ai", aiResult.metadata)
          else
            (aiResult.reply, "ai_error_fallback", aiResult.metadata)
      | AIOutcome.thrown =>
          ("I'm having trouble processing that right now. Could you try asking in a different way?",
           "error_fallback", none)
    else
      ("I encountered an error processing your message. Please try again.", "error", none)
  { reply := gen.1
    intent := routingResult.intent
    confidence := routingResult.confidence
    confidenceLevel := routingResult.confidenceLevel
    matchedPatterns := routingResult.matchedPatterns
    strategy := routingResult.strategy
    responseSource := gen.2.1
    shouldUseAI := routingResult.shouldUseAI
    isSafeIntent := routingResult.isSafeIntent
    allScores := routingResult.allScores
    aiMetadata := gen.2.2 }

/-- The whitespace class used by `.trim()` and the regex `\s` in
`preprocess.js`, at the granularity of this model. -/
def isWs (c : Char) : Bool :=
  c.isWhitespace

/-- Model of `.toLowerCase()` on a single character: an upper-case letter (code 65–90)
moves down 32 code points, everything else is untouched. -/
def lowerChar (c : Char) : Char :=
  if h : 65 ≤ c.toNat ∧ c.toNat ≤ 90 then
    Char.ofNatAux (c.toNat + 32) (Or.inl (by omega))
  else c

/-- STEP 2 of `preprocess`: `rawMessage.toLowerCase()`. -/
def toLowerChars (l : List Char) : List Char :=
  l.map lowerChar

/-- STEP 3 of `preprocess`: `.trim()` — drop leading whitespace, then drop
trailing whitespace. -/
def trimChars (l : List Char) : List Char :=
  (l.dropWhile isWs).rdropWhile isWs

/-- STEP 4 of `preprocess`: `.replace(/\s+/g, ' ')` — every maximal run of
whitespace characters becomes a single space. -/
def collapseWs : List Char → List Char
  | [] => []
  | c :: rest =>
    if isWs c then ' ' :: collapseWs (rest.dropWhile isWs)
    else c :: collapseWs rest
termination_by l => l.length
decreasing_by
  · have := (List.dropWhile_suffix (p := isWs) (l := rest)).sublist.length_le
    simp only [List.length_cons]
    omega
  · simp

/-- The three transformation steps of `preprocess`, in source order:
lowercase, trim, collapse whitespace runs. -/
def normalizeChars (l : List Char) : List Char :=
  collapseWs (trimChars (toLowerChars l))

/-- The value object returned by `preprocess`: the untouched original and
the processed (normalized) text. -/
structure Preprocessed where
  original : String
  processed : String
deriving Repr, DecidableEq

/-- Model of `preprocess(rawMessage)` of `backend/utils/preprocess.js`.  (STEP 0 of
the source coerces non-string input with `String(...)`; the model's input is
already a string.) -/
def preprocess (rawMessage : String) : Preprocessed :=
  { original := rawMessage
    processed := String.mk (normalizeChars rawMessage.data) }

/-- A character list does not end in whitespace (vacuously true for `[]`).
Used to state the invariants `preprocess`'s trim and collapse steps
establish. -/
def lastNotWs (l : List Char) : Prop :=
  ∀ c, l.getLast? = some c → isWs c = false

/-! ## Supporting lemmas: the score dictionaries and the selection fold -/

theorem scoreIntent_confidence_nonneg (message : String) (intent : Intent) :
    0 ≤ (scoreIntent message intent).confidence := by
  simp only [scoreIntent]
  split
  · positivity
  · exact le_refl 0

theorem bestStep_foldl_const (l : List (String × ℚ)) (a : ℚ × Option String)
    (h : ∀ kv ∈ l, kv.2 ≤ a.1) : l.foldl bestStep a = a := by
  induction l generalizing a with
  | nil => rfl
  | cons kv rest ih =>
    have hstep : bestStep a kv = a :=
      if_neg (not_lt.mpr (h kv (List.mem_cons_self _ _)))
    rw [List.foldl_cons, hstep]
    exact ih a (fun kv' h' => h kv' (List.mem_cons_of_mem _ h'))

theorem bestStep_foldl_cases (l : List (String × ℚ)) (a : ℚ × Option String) :
    l.foldl bestStep a = a ∨
      ∃ kv ∈ l, l.foldl bestStep a = (kv.2, some kv.1) ∧ a.1 < kv.2 := by
  induction l generalizing a with
  | nil => exact Or.inl rfl
  | cons kv rest ih =>
    rw [List.foldl_cons]
    by_cases h : kv.2 > a.1
    · rw [show bestStep a kv = (kv.2, some kv.1) from if_pos h]
      rcases ih (kv.2, some kv.1) with heq | ⟨kv', hmem, heq, hlt⟩
      · exact Or.inr ⟨kv, List.mem_cons_self _ _, heq, h⟩
      · exact Or.inr ⟨kv', List.mem_cons_of_mem _ hmem, heq, lt_trans h hlt⟩
    · rw [show bestStep a kv = a from if_neg h]
      rcases ih a with heq | ⟨kv', hmem, heq, hlt⟩
      · exact Or.inl heq
      · exact Or.inr ⟨kv', List.mem_cons_of_mem _ hmem, heq, hlt⟩

theorem bestStep_foldl_first_max (l : List (String × ℚ)) (a : ℚ × Option String)
    (hex : ∃ kv ∈ l, a.1 < kv.2) :
    ∃ l₁ kv l₂, l = l₁ ++ kv :: l₂ ∧
      l.foldl bestStep a = (kv.2, some kv.1) ∧ a.1 < kv.2 ∧
      (∀ kv' ∈ l, kv'.2 ≤ kv.2) ∧
      (∀ kv' ∈ l₁, kv'.2 < kv.2 ∨ kv'.2 ≤ a.1) := by
  induction l generalizing a with
  | nil => simp at hex
  | cons kv0 rest ih =>
    rw [List.foldl_cons]
    by_cases h : kv0.2 > a.1
    · rw [show bestStep a kv0 = (kv0.2, some kv0.1) from if_pos h]
      by_cases hrest : ∃ kv ∈ rest, kv0.2 < kv.2
      · obtain ⟨l₁, kv, l₂, hsplit, heq, hlt, hmax, hbefore⟩ :=
          ih (kv0.2, some kv0.1) hrest
        refine ⟨kv0 :: l₁, kv, l₂, by rw [hsplit]; rfl, heq, lt_trans h hlt, ?_, ?_⟩
        · intro kv' h'
          rcases List.mem_cons.mp h' with h' | h'
          · rw [h']; exact le_of_lt hlt
          · exact hmax kv' h'
        · intro kv' h'
          rcases List.mem_cons.mp h' with h' | h'
          · rw [h']; exact Or.inl hlt
          · rcases hbefore kv' h' with hb | hb
            · exact Or.inl hb
            · exact Or.inl (lt_of_le_of_lt hb hlt)
      · push_neg at hrest
        have hconst := bestStep_foldl_const rest (kv0.2, some kv0.1) hrest
        refine ⟨[], kv0, rest, rfl, hconst, h, ?_, by simp⟩
        intro kv' h'
        rcases List.mem_cons.mp h' with h' | h'
        · rw [h']
        · exact hrest kv' h'
    · rw [show bestStep a kv0 = a from if_neg h]
      have hrest : ∃ kv ∈ rest, a.1 < kv.2 := by
        obtain ⟨kv, hmem, hlt⟩ := hex
        rcases List.mem_cons.mp hmem with hkv | hmem
        · exact absurd (hkv ▸ hlt) h
        · exact ⟨kv, hmem, hlt⟩
      obtain ⟨l₁, kv, l₂, hsplit, heq, hlt, hmax, hbefore⟩ := ih a hrest
      refine ⟨kv0 :: l₁, kv, l₂, by rw [hsplit]; rfl, heq, hlt, ?_, ?_⟩
      · intro kv' h'
        rcases List.mem_cons.mp h' with h' | h'
        · rw [h']; exact le_trans (not_lt.mp h) (le_of_lt hlt)
        · exact hmax kv' h'
      · intro kv' h'
        rcases List.mem_cons.mp h' with h' | h'
        · rw [h']; exact Or.inr (not_lt.mp h)
        · exact hbefore kv' h'

theorem mem_objSet {α : Type} {l : List (String × α)} {k : String} {v : α}
    {kv : String × α} (h : kv ∈ objSet l k v) : kv ∈ l ∨ kv = (k, v) := by
  unfold objSet at h
  split at h
  · obtain ⟨kv', hmem', heq⟩ := List.mem_map.mp h
    by_cases hk : kv'.1 == k
    · rw [if_pos hk] at heq
      exact Or.inr heq.symm
    · rw [if_neg hk] at heq
      exact Or.inl (heq ▸ hmem')
  · rcases List.mem_append.mp h with h' | h'
    · exact Or.inl h'
    · exact Or.inr (List.mem_singleton.mp h')

theorem objSet_fresh {α : Type} {l : List (String × α)} {k : String} {v : α}
    (h : ∀ kv ∈ l, kv.1 ≠ k) : objSet l k v = l ++ [(k, v)] := by
  unfold objSet
  rw [if_neg]
  intro hc
  obtain ⟨kv, hmem, hbeq⟩ := List.any_eq_true.mp hc
  exact h kv hmem (beq_iff_eq.mp hbeq)

theorem keys_nodup_objSet {α : Type} {l : List (String × α)} {k : String} {v : α}
    (h : (l.map Prod.fst).Nodup) : ((objSet l k v).map Prod.fst).Nodup := by
  unfold objSet
  split
  · have hkeys : (l.map (fun kv => if kv.1 == k then (k, v) else kv)).map Prod.fst =
        l.map Prod.fst := by
      rw [List.map_map]
      apply List.map_congr_left
      intro kv _
      by_cases hk : kv.1 == k
      · simp only [Function.comp_apply, if_pos hk]
        exact (beq_iff_eq.mp hk).symm
      · simp only [Function.comp_apply, if_neg hk]
    rw [hkeys]
    exact h
  · next hany =>
    rw [List.map_append]
    rw [List.nodup_append]
    refine ⟨h, List.nodup_singleton _, ?_⟩
    intro key hkey hkey'
    obtain ⟨kv, hmem, hfst⟩ := List.mem_map.mp hkey
    have hkeq : key = k := by simpa using hkey'
    exact hany (List.any_eq_true.mpr ⟨kv, hmem, beq_iff_eq.mpr (hfst.trans hkeq)⟩)

theorem mem_scoreStep_foldl_fst (processedMessage : String) (its : List Intent)
    (acc : List (String × ℚ) × List (String × List String)) {kv : String × ℚ}
    (h : kv ∈ (its.foldl (scoreStep processedMessage) acc).1) :
    kv ∈ acc.1 ∨
      ∃ it ∈ its, kv = (it.intent, (scoreIntent processedMessage it).confidence) := by
  induction its generalizing acc with
  | nil => exact Or.inl h
  | cons it rest ih =>
    rw [List.foldl_cons] at h
    rcases ih (scoreStep processedMessage acc it) h with h' | ⟨it', hmem', heq'⟩
    · rcases mem_objSet h' with h'' | h''
      · exact Or.inl h''
      · exact Or.inr ⟨it, List.mem_cons_self _ _, h''⟩
    · exact Or.inr ⟨it', List.mem_cons_of_mem _ hmem', heq'⟩

theorem keys_nodup_scoreStep_foldl (processedMessage : String) (its : List Intent)
    (acc : List (String × ℚ) × List (String × List String))
    (h : (acc.1.map Prod.fst).Nodup) :
    (((its.foldl (scoreStep processedMessage) acc).1).map Prod.fst).Nodup := by
  induction its generalizing acc with
  | nil => exact h
  | cons it rest ih =>
    rw [List.foldl_cons]
    exact ih (scoreStep processedMessage acc it) (keys_nodup_objSet h)

theorem scoreStep_foldl_eq (processedMessage : String) (its : List Intent)
    (acc : List (String × ℚ) × List (String × List String))
    (hfresh1 : ∀ it ∈ its, ∀ kv ∈ acc.1, kv.1 ≠ it.intent)
    (hfresh2 : ∀ it ∈ its, ∀ kv ∈ acc.2, kv.1 ≠ it.intent)
    (hnodup : (its.map Intent.intent).Nodup) :
    its.foldl (scoreStep processedMessage) acc =
      (acc.1 ++ its.map
        (fun it => (it.intent, (scoreIntent processedMessage it).confidence)),
       acc.2 ++ its.map
        (fun it => (it.intent, (scoreIntent processedMessage it).matchedPatterns))) := by
  induction its generalizing acc with
  | nil => simp
  | cons it rest ih =>
    rw [List.foldl_cons]
    rw [List.map_cons] at hnodup
    have hnotin : it.intent ∉ rest.map Intent.intent := (List.nodup_cons.mp hnodup).1
    have hstep : scoreStep processedMessage acc it =
        (acc.1 ++ [(it.intent, (scoreIntent processedMessage it).confidence)],
         acc.2 ++ [(it.intent, (scoreIntent processedMessage it).matchedPatterns)]) := by
      simp only [scoreStep]
      rw [objSet_fresh (hfresh1 it (List.mem_cons_self _ _)),
        objSet_fresh (hfresh2 it (List.mem_cons_self _ _))]
    rw [hstep]
    rw [ih _ ?_ ?_ (List.nodup_cons.mp hnodup).2]
    · simp
    · intro it' hit' kv hkv
      rcases List.mem_append.mp hkv with hkv | hkv
      · exact hfresh1 it' (List.mem_cons_of_mem _ hit') kv hkv
      · rw [List.mem_singleton.mp hkv]
        intro hc
        have hc' : it.intent = it'.intent := hc
        exact hnotin (by rw [hc']; exact List.mem_map_of_mem Intent.intent hit')
    · intro it' hit' kv hkv
      rcases List.mem_append.mp hkv with hkv | hkv
      · exact hfresh2 it' (List.mem_cons_of_mem _ hit') kv hkv
      · rw [List.mem_singleton.mp hkv]
        intro hc
        have hc' : it.intent = it'.intent := hc
        exact hnotin (by rw [hc']; exact List.mem_map_of_mem Intent.intent hit')

theorem lookup_eq_of_keys_nodup {α : Type} {l : List (String × α)}
    (hnodup : (l.map Prod.fst).Nodup) {k : String} {v : α} (hmem : (k, v) ∈ l) :
    l.lookup k = some v := by
  induction l with
  | nil => exact absurd hmem (List.not_mem_nil _)
  | cons kv rest ih =>
    obtain ⟨k', v'⟩ := kv
    rw [List.map_cons, List.nodup_cons] at hnodup
    rcases List.mem_cons.mp hmem with heq | hmem'
    · injection heq with hk hv
      subst hk
      subst hv
      simp [List.lookup_cons]
    · have hne : (k == k') = false := by
        rw [beq_eq_false_iff_ne]
        intro hc
        apply hnodup.1
        rw [← hc]
        have hm := List.mem_map_of_mem Prod.fst hmem'
        exact hm
      simp only [List.lookup_cons, hne]
      exact ih hnodup.2 hmem'

/-! ## Supporting lemmas: the normalizer -/

theorem lowerChar_toNat (c : Char) :
    (lowerChar c).toNat = if 65 ≤ c.toNat ∧ c.toNat ≤ 90 then c.toNat + 32 else c.toNat := by
  unfold lowerChar
  split
  · rfl
  · rfl

theorem lowerChar_of_not_upper (c : Char) (h : ¬ (65 ≤ c.toNat ∧ c.toNat ≤ 90)) :
    lowerChar c = c :=
  dif_neg h

theorem lowerChar_idem (c : Char) : lowerChar (lowerChar c) = lowerChar c :=
  lowerChar_of_not_upper _ (by have := lowerChar_toNat c; split at this <;> omega)

theorem map_eq_self_of_fix {α : Type} {f : α → α} :
    ∀ {l : List α}, (∀ x ∈ l, f x = x) → l.map f = l
  | [], _ => rfl
  | x :: xs, h => by
    rw [List.map_cons, h x (List.mem_cons_self _ _),
      map_eq_self_of_fix (fun y hy => h y (List.mem_cons_of_mem _ hy))]

theorem collapseWs_nil : collapseWs [] = [] := by
  rw [collapseWs]

theorem collapseWs_eq_nil_iff (l : List Char) : collapseWs l = [] ↔ l = [] := by
  cases l with
  | nil => simp [collapseWs]
  | cons c rest =>
    rw [collapseWs]
    constructor
    · intro h
      split at h <;> exact absurd h (List.cons_ne_nil _ _)
    · intro h
      exact absurd h (List.cons_ne_nil _ _)

theorem mem_collapseWs {c : Char} : ∀ {l : List Char}, c ∈ collapseWs l → c = ' ' ∨ c ∈ l := by
  intro l
  induction l using collapseWs.induct with
  | case1 => intro h; simp [collapseWs] at h
  | case2 c' rest hws ih =>
    rw [collapseWs, if_pos hws]
    intro h
    rcases List.mem_cons.mp h with h' | h'
    · exact Or.inl h'
    · rcases ih h' with h'' | h''
      · exact Or.inl h''
      · exact Or.inr (List.mem_cons_of_mem _
          ((List.dropWhile_suffix isWs).sublist.subset h''))
  | case3 c' rest hws ih =>
    rw [collapseWs, if_neg hws]
    intro h
    rcases List.mem_cons.mp h with h' | h'
    · exact Or.inr (h' ▸ List.mem_cons_self _ _)
    · rcases ih h' with h'' | h''
      · exact Or.inl h''
      · exact Or.inr (List.mem_cons_of_mem _ h'')

theorem mem_trimChars {c : Char} {l : List Char} (h : c ∈ trimChars l) : c ∈ l := by
  unfold trimChars List.rdropWhile at h
  rw [List.mem_reverse] at h
  have h1 := (List.dropWhile_suffix isWs).sublist.subset h
  rw [List.mem_reverse] at h1
  exact (List.dropWhile_suffix isWs).sublist.subset h1

theorem dropWhile_head_false {c : Char} {rest : List Char}
    (hfix : (c :: rest).dropWhile isWs = c :: rest) : isWs c = false := by
  by_contra hc
  have hc' : isWs c = true := by
    cases h : isWs c
    · exact absurd h hc
    · rfl
  rw [List.dropWhile_cons, if_pos hc'] at hfix
  have := (List.dropWhile_suffix (l := rest) isWs).sublist.length_le
  have hlen := congrArg List.length hfix
  simp only [List.length_cons] at hlen
  omega

theorem dropWhile_collapseWs {l : List Char} (hfix : l.dropWhile isWs = l) :
    (collapseWs l).dropWhile isWs = collapseWs l := by
  cases l with
  | nil => simp [collapseWs]
  | cons c rest =>
    have hc := dropWhile_head_false hfix
    rw [collapseWs, if_neg (by simp [hc]), List.dropWhile_cons, if_neg (by simp [hc])]

theorem dropWhile_rdropWhile {m : List Char} (hfix : m.dropWhile isWs = m) :
    (m.rdropWhile isWs).dropWhile isWs = m.rdropWhile isWs := by
  cases m with
  | nil => simp [List.rdropWhile_nil]
  | cons c rest =>
    have hc := dropWhile_head_false hfix
    have hp := List.rdropWhile_prefix (p := isWs) (l := c :: rest)
    obtain ⟨s, hs⟩ := hp
    cases ht : (c :: rest).rdropWhile isWs with
    | nil => rfl
    | cons d t =>
      rw [ht] at hs
      have hd : d = c := by
        have := congrArg (fun l => l.head?) hs
        simpa using this
      rw [hd, List.dropWhile_cons, if_neg (by simp [hc])]

theorem lastNotWs_iff_rdropWhile_fix (l : List Char) :
    lastNotWs l ↔ l.rdropWhile isWs = l := by
  rw [List.rdropWhile_eq_self_iff]
  constructor
  · intro h hl
    have hg := List.getLast?_eq_getLast l hl
    intro hws
    have hf := h _ hg
    rw [hf] at hws
    simp at hws
  · intro h c hc
    by_cases hl : l = []
    · rw [hl] at hc
      simp at hc
    · have hg := List.getLast?_eq_getLast l hl
      rw [hg] at hc
      injection hc with hc'
      rw [← hc']
      have hb := h hl
      cases hx : isWs (l.getLast hl)
      · rfl
      · exact absurd hx hb

theorem lastNotWs_trimChars (l : List Char) : lastNotWs (trimChars l) := by
  unfold trimChars
  rw [lastNotWs_iff_rdropWhile_fix]
  exact List.rdropWhile_idempotent _ _

theorem lastNotWs_of_cons {a : Char} {l : List Char} (h : lastNotWs (a :: l)) :
    lastNotWs l := by
  intro c hc
  apply h c
  rw [List.getLast?_cons, hc]
  rfl

theorem lastNotWs_cons_of_ne_nil {a : Char} {l : List Char} (hne : l ≠ [])
    (h : lastNotWs l) : lastNotWs (a :: l) := by
  intro c hc
  rw [List.getLast?_cons] at hc
  obtain ⟨e, he⟩ : ∃ e, l.getLast? = some e :=
    ⟨l.getLast hne, List.getLast?_eq_getLast l hne⟩
  rw [he] at hc
  injection hc with hc'
  rw [← hc']
  exact h e he

theorem lastNotWs_dropWhile {l : List Char} (h : lastNotWs l) :
    lastNotWs (l.dropWhile isWs) := by
  intro c hc
  obtain ⟨t, ht⟩ := List.dropWhile_suffix (l := l) isWs
  apply h c
  rw [← ht, List.getLast?_append, hc]
  rfl

theorem lastNotWs_not_all_ws {c : Char} {rest : List Char}
    (h : lastNotWs (c :: rest)) (hc : isWs c = true)
    (hrest : ∀ x ∈ rest, isWs x = true) : False := by
  have hne : (c :: rest : List Char) ≠ [] := List.cons_ne_nil _ _
  have hg := List.getLast?_eq_getLast _ hne
  have hmem := List.getLast_mem hne
  have hws : isWs ((c :: rest).getLast hne) = true := by
    rcases List.mem_cons.mp hmem with h' | h'
    · rw [h']; exact hc
    · exact hrest _ h'
  have hf := h _ hg
  rw [hf] at hws
  simp at hws

theorem lastNotWs_collapseWs : ∀ {l : List Char}, lastNotWs l → lastNotWs (collapseWs l) := by
  intro l
  induction l using collapseWs.induct with
  | case1 =>
    intro _ c hc
    simp [collapseWs] at hc
  | case2 c' rest hws ih =>
    intro h
    rw [collapseWs, if_pos hws]
    by_cases hnil : rest.dropWhile isWs = []
    · exact absurd (lastNotWs_not_all_ws h hws (List.dropWhile_eq_nil_iff.mp hnil)) not_false
    · have hcoll : collapseWs (rest.dropWhile isWs) ≠ [] := by
        rw [Ne, collapseWs_eq_nil_iff]
        exact hnil
      exact lastNotWs_cons_of_ne_nil hcoll (ih (lastNotWs_dropWhile (lastNotWs_of_cons h)))
  | case3 c' rest hws ih =>
    intro h
    rw [collapseWs, if_neg hws]
    by_cases hnil : rest = []
    · subst hnil
      intro d hd
      rw [collapseWs_nil] at hd
      rw [List.getLast?_singleton] at hd
      injection hd with hd'
      rw [← hd']
      cases hx : isWs c'
      · rfl
      · exact absurd hx hws
    · have hcoll : collapseWs rest ≠ [] := by
        rw [Ne, collapseWs_eq_nil_iff]
        exact hnil
      exact lastNotWs_cons_of_ne_nil hcoll (ih (lastNotWs_of_cons h))

theorem collapseWs_idem : ∀ l : List Char, collapseWs (collapseWs l) = collapseWs l := by
  intro l
  induction l using collapseWs.induct with
  | case1 => rw [collapseWs_nil, collapseWs_nil]
  | case2 c rest hws ih =>
    rw [collapseWs, if_pos hws]
    rw [collapseWs, if_pos (show isWs ' ' = true from by decide)]
    rw [dropWhile_collapseWs (List.dropWhile_idempotent _ _), ih]
  | case3 c rest hws ih =>
    rw [collapseWs, if_neg hws]
    rw [collapseWs, if_neg hws, ih]

theorem trimChars_collapseWs_fix (m : List Char) :
    trimChars (collapseWs (trimChars m)) = collapseWs (trimChars m) := by
  have hfix1 : (trimChars m).dropWhile isWs = trimChars m := by
    unfold trimChars
    exact dropWhile_rdropWhile (List.dropWhile_idempotent _ _)
  have hdrop : (collapseWs (trimChars m)).dropWhile isWs = collapseWs (trimChars m) :=
    dropWhile_collapseWs hfix1
  have hlast : lastNotWs (collapseWs (trimChars m)) :=
    lastNotWs_collapseWs (lastNotWs_trimChars m)
  calc trimChars (collapseWs (trimChars m))
      = ((collapseWs (trimChars m)).dropWhile isWs).rdropWhile isWs := rfl
    _ = (collapseWs (trimChars m)).rdropWhile isWs := by rw [hdrop]
    _ = collapseWs (trimChars m) := (lastNotWs_iff_rdropWhile_fix _).mp hlast

theorem toLowerChars_normalizeChars_fix (m : List Char) :
    toLowerChars (normalizeChars m) = normalizeChars m := by
  apply map_eq_self_of_fix
  intro c hc
  simp only [normalizeChars] at hc
  rcases mem_collapseWs hc with h' | h'
  · rw [h']
    decide
  · have h'' := mem_trimChars h'
    obtain ⟨a, _, ha⟩ := List.mem_map.mp h''
    rw [← ha]
    exact lowerChar_idem a

/-! ## Claims about the IntentScorer's per-intent scoring (`scoreIntent`) -/

/-- C3: for every intent and every normalized message, the per-intent
confidence equals the number of the intent's patterns occurring as substrings
of the message divided by the total number of that intent's patterns, is 0
when the intent has zero patterns (the division is guarded, so no division by
zero and no exception occurs), and therefore always lies in [0, 1]. -/
theorem scoreIntent_ratio_and_bounds (message : String) (intent : Intent) :
    (scoreIntent message intent).confidence =
      (if intent.patterns = [] then 0
       else ((intent.patterns.countP (fun p => includes message p)) : ℚ) /
         ((intent.patterns.length : ℕ) : ℚ)) ∧
    0 ≤ (scoreIntent message intent).confidence ∧
    (scoreIntent message intent).confidence ≤ 1 := by
  have hcount : (intent.patterns.filter (fun p => includes message p)).length =
      intent.patterns.countP (fun p => includes message p) :=
    (List.countP_eq_length_filter _ _).symm
  by_cases h : intent.patterns = []
  · simp [scoreIntent, h]
  · have hlen : 0 < intent.patterns.length := List.length_pos.mpr h
    have hlenq : (0 : ℚ) < ((intent.patterns.length : ℕ) : ℚ) := by exact_mod_cast hlen
    refine ⟨?_, ?_, ?_⟩
    · simp only [scoreIntent, if_pos hlen, if_neg h, hcount]
    · simp only [scoreIntent, if_pos hlen]
      positivity
    · simp only [scoreIntent, if_pos hlen]
      rw [div_le_one hlenq]
      exact_mod_cast List.length_filter_le _ _

/-- C6: for every intent and every message containing every one of the
intent's patterns verbatim as substrings, the intent's confidence is exactly
1.0.  (The intent has at least one pattern, as the data model requires:
`patterns` is a non-empty sequence.) -/
theorem scoreIntent_all_patterns_matched (message : String) (intent : Intent)
    (hne : intent.patterns ≠ [])
    (hall : ∀ p ∈ intent.patterns, p.data <:+: message.data) :
    (scoreIntent message intent).confidence = 1 := by
  have hfilter : intent.patterns.filter (fun p => includes message p) = intent.patterns :=
    List.filter_eq_self.mpr (fun p hp => decide_eq_true (hall p hp))
  have hlen : 0 < intent.patterns.length := List.length_pos.mpr hne
  have hlenq : ((intent.patterns.length : ℕ) : ℚ) ≠ 0 := by
    exact_mod_cast Nat.pos_iff_ne_zero.mp hlen
  simp only [scoreIntent, hfilter, if_pos hlen]
  exact div_self hlenq

/-- Witness for C6 at a concrete input: the message `"hi hello"` contains
both patterns of the greeting intent, whose confidence is then 1. -/
theorem scoreIntent_all_patterns_matched_witness :
    ((["hello", "hi"] : List String) ≠ [] ∧
      ∀ p ∈ (["hello", "hi"] : List String), p.data <:+: "hi hello".data) ∧
    (scoreIntent "hi hello"
      { intent := "greeting", patterns := ["hello", "hi"], responses := ["Hi!"] }).confidence = 1 :=
  ⟨⟨by decide, by decide⟩,
    scoreIntent_all_patterns_matched "hi hello"
      { intent := "greeting", patterns := ["hello", "hi"], responses := ["Hi!"] }
      (by decide) (by decide)⟩

/-! ## Claims about the Router (`routeIntent`) -/

/-- C1: every detection whose intent is one of the safe intents is routed
to the knowledge base with `shouldUseAI = false`, for every confidence value
including 0: a safe intent is never routed to the AI collaborator. -/
theorem routeIntent_safe_never_ai (d : DetectionResult)
    (hsafe : d.intent ∈ SAFE_INTENTS) :
    (routeIntent d).strategy = "knowledge_base" ∧ (routeIntent d).shouldUseAI = false := by
  have hb : isSafeIntent d.intent = true := List.elem_iff.mpr hsafe
  have hne : d.intent ≠ "" ∧ d.intent ≠ "unknown" := by
    simp only [SAFE_INTENTS, List.mem_cons, List.not_mem_nil, or_false] at hsafe
    rcases hsafe with h | h | h | h | h | h <;> rw [h] <;> exact ⟨by decide, by decide⟩
  simp [routeIntent, hne.1, hne.2, hb]

/-- Witness for C1 at a concrete input: the safe intent `greeting` with a
manufactured confidence of 0 still goes to the knowledge base. -/
theorem routeIntent_safe_never_ai_witness :
    ("greeting" ∈ SAFE_INTENTS) ∧
    (routeIntent
      { intent := "greeting", confidence := 0, matchedPatterns := [],
        allScores := [], explanation := "" }).strategy = "knowledge_base" ∧
    (routeIntent
      { intent := "greeting", confidence := 0, matchedPatterns := [],
        allScores := [], explanation := "" }).shouldUseAI = false :=
  ⟨by decide,
    routeIntent_safe_never_ai
      { intent := "greeting", confidence := 0, matchedPatterns := [],
        allScores := [], explanation := "" } (by decide)⟩

/-- C5: for a known, non-safe (escalation-capable) intent — any nonempty
intent name other than the sentinel `"unknown"` that is not in
`SAFE_INTENTS` — routing compares the confidence against the MEDIUM
threshold, whose value is 0.4: at or above it the knowledge base is used,
strictly below it the AI fallback is used. -/
theorem routeIntent_escalation_thresholds (d : DetectionResult)
    (h1 : d.intent ≠ "") (h2 : d.intent ≠ "unknown")
    (h3 : d.intent ∉ SAFE_INTENTS) :
    CONFIDENCE_THRESHOLDS.MEDIUM = (0.4 : ℚ) ∧
    ((0.4 : ℚ) ≤ d.confidence →
      (routeIntent d).strategy = "knowledge_base" ∧ (routeIntent d).shouldUseAI = false) ∧
    (d.confidence < (0.4 : ℚ) →
      (routeIntent d).strategy = "ai_fallback" ∧ (routeIntent d).shouldUseAI = true) := by
  have hmed : CONFIDENCE_THRESHOLDS.MEDIUM = (0.4 : ℚ) := by norm_num [CONFIDENCE_THRESHOLDS]
  have hb : isSafeIntent d.intent = false := by
    rw [Bool.eq_false_iff]
    intro hc
    exact h3 (List.elem_iff.mp hc)
  refine ⟨hmed, fun hconf => ?_, fun hconf => ?_⟩
  · have hge : CONFIDENCE_THRESHOLDS.MEDIUM ≤ d.confidence := hmed ▸ hconf
    simp [routeIntent, h1, h2, hb, hge]
  · have hlt : ¬ CONFIDENCE_THRESHOLDS.MEDIUM ≤ d.confidence := by
      rw [hmed]; exact not_le.mpr hconf
    simp [routeIntent, h1, h2, hb, hlt]

/-- Witness for C5 at the claim's own concrete inputs: the non-safe intent
`weather` with confidence 0.5 goes to the knowledge base and with 0.3 goes to
the AI fallback. -/
theorem routeIntent_escalation_thresholds_witness :
    (("weather" : String) ≠ "" ∧ ("weather" : String) ≠ "unknown" ∧
      "weather" ∉ SAFE_INTENTS) ∧
    ((0.4 : ℚ) ≤ (0.5 : ℚ) ∧
      (routeIntent
        { intent := "weather", confidence := 0.5, matchedPatterns := [],
          allScores := [], explanation := "" }).strategy = "knowledge_base") ∧
    ((0.3 : ℚ) < (0.4 : ℚ) ∧
      (routeIntent
        { intent := "weather", confidence := 0.3, matchedPatterns := [],
          allScores := [], explanation := "" }).strategy = "ai_fallback") :=
  ⟨⟨by decide, by decide, by decide⟩,
    ⟨by norm_num,
      ((routeIntent_escalation_thresholds
        { intent := "weather", confidence := 0.5, matchedPatterns := [],
          allScores := [], explanation := "" }
        (by decide) (by decide) (by decide)).2.1 (by norm_num)).1⟩,
    ⟨by norm_num,
      ((routeIntent_escalation_thresholds
        { intent := "weather", confidence := 0.3, matchedPatterns := [],
          allScores := [], explanation := "" }
        (by decide) (by decide) (by decide)).2.2 (by norm_num)).1⟩⟩

/-! ## Claims about the ResponseAssembler (`generateResponse`) -/

/-- C7: for every routing decision with strategy AI_FALLBACK, (a) when
the collaborator resolves with `success = false` the envelope carries
`responseSource = "ai_error_fallback"`, the collaborator's own reply and the
collaborator's metadata; (b) the collaborator's failure results (built by
`createErrorResponse`) always carry a fixed, non-empty fallback reply;
(c) when the collaborator call throws, the envelope carries
`responseSource = "error_fallback"` and the hardcoded apology.  In every case
`generateResponse` is a total function into `ResponseEnvelope`: no exception
reaches the caller. -/
theorem generateResponse_ai_failure_handling (routingResult : RoutingDecision)
    (knowledgeBase : KnowledgeBase) (rand : ℕ)
    (hstrat : routingResult.strategy = "ai_fallback") :
    (∀ aiResult : AIResult, aiResult.success = false →
      (generateResponse routingResult knowledgeBase (AIOutcome.result aiResult) rand).responseSource =
        "ai_error_fallback" ∧
      (generateResponse routingResult knowledgeBase (AIOutcome.result aiResult) rand).reply =
        aiResult.reply ∧
      (generateResponse routingResult knowledgeBase (AIOutcome.result aiResult) rand).aiMetadata =
        aiResult.metadata) ∧
    (∀ errorMessage metadataToken : String,
      (createErrorResponse errorMessage metadataToken).success = false ∧
      (createErrorResponse errorMessage metadataToken).reply ≠ "") ∧
    ((generateResponse routingResult knowledgeBase AIOutcome.thrown rand).responseSource =
        "error_fallback" ∧
      (generateResponse routingResult knowledgeBase AIOutcome.thrown rand).reply =
        "I'm having trouble processing that right now. Could you try asking in a different way?") := by
  refine ⟨fun aiResult hfail => ?_,
    fun errorMessage metadataToken =>
      ⟨rfl, by
        show ("I'm having trouble connecting to my AI brain right now. Please try again." : String) ≠ ""
        decide⟩,
    ?_⟩
  · simp [generateResponse, hstrat, hfail]
  · simp [generateResponse, hstrat]

/-- Witness for C7 at a concrete input: an AI-fallback decision whose
collaborator call fails (and one whose call throws). -/
theorem generateResponse_ai_failure_handling_witness :
    (({ strategy := "ai_fallback", intent := "unknown", confidence := 0,
        confidenceLevel := "low", isSafeIntent := false, shouldUseAI := true,
        matchedPatterns := [], allScores := [] } : RoutingDecision).strategy = "ai_fallback") ∧
    ((createErrorResponse "API key not configured" "meta").success = false →
      (generateResponse
        { strategy := "ai_fallback", intent := "unknown", confidence := 0,
          confidenceLevel := "low", isSafeIntent := false, shouldUseAI := true,
          matchedPatterns := [], allScores := [] }
        (KnowledgeBase.mk [])
        (AIOutcome.result (createErrorResponse "API key not configured" "meta")) 0).responseSource =
        "ai_error_fallback") ∧
    (generateResponse
      { strategy := "ai_fallback", intent := "unknown", confidence := 0,
        confidenceLevel := "low", isSafeIntent := false, shouldUseAI := true,
        matchedPatterns := [], allScores := [] }
      (KnowledgeBase.mk []) AIOutcome.thrown 0).responseSource = "error_fallback" :=
  ⟨rfl,
    fun hfail =>
      ((generateResponse_ai_failure_handling
        { strategy := "ai_fallback", intent := "unknown", confidence := 0,
          confidenceLevel := "low", isSafeIntent := false, shouldUseAI := true,
          matchedPatterns := [], allScores := [] }
        (KnowledgeBase.mk []) 0 rfl).1
        (createErrorResponse "API key not configured" "meta") hfail).1,
    ((generateResponse_ai_failure_handling
      { strategy := "ai_fallback", intent := "unknown", confidence := 0,
        confidenceLevel := "low", isSafeIntent := false, shouldUseAI := true,
        matchedPatterns := [], allScores := [] }
      (KnowledgeBase.mk []) 0 rfl).2.2).1⟩

/-- C10: a KNOWLEDGE_BASE routing decision whose intent name is not
present in the knowledge base at all does not raise: the assembler returns
the same fixed apologetic reply with `responseSource = "error_fallback"` as
in the found-but-empty-responses case (the source funnels both through the
single `else` of its found-with-responses test). -/
theorem generateResponse_missing_intent_fallback (routingResult : RoutingDecision)
    (knowledgeBase : KnowledgeBase) (aiOutcome : AIOutcome) (rand : ℕ)
    (hstrat : routingResult.strategy = "knowledge_base")
    (hmiss : ∀ intent ∈ knowledgeBase.intents, intent.intent ≠ routingResult.intent) :
    (generateResponse routingResult knowledgeBase aiOutcome rand).responseSource =
      "error_fallback" ∧
    (generateResponse routingResult knowledgeBase aiOutcome rand).reply =
      "I understand what you're asking, but I don't have a response prepared for that yet. " ∧
    (∀ (knowledgeBase' : KnowledgeBase) (intentData : Intent),
      findIntentInKnowledgeBase routingResult.intent knowledgeBase' = some intentData →
      intentData.responses = [] →
      (generateResponse routingResult knowledgeBase' aiOutcome rand).reply =
        (generateResponse routingResult knowledgeBase aiOutcome rand).reply ∧
      (generateResponse routingResult knowledgeBase' aiOutcome rand).responseSource =
        (generateResponse routingResult knowledgeBase aiOutcome rand).responseSource) := by
  have hfind : findIntentInKnowledgeBase routingResult.intent knowledgeBase = none := by
    unfold findIntentInKnowledgeBase
    split
    · rfl
    · rw [List.find?_eq_none]
      intro intent hintent
      simpa using hmiss intent hintent
  refine ⟨?_, ?_, ?_⟩
  · simp [generateResponse, hstrat, hfind]
  · simp [generateResponse, hstrat, hfind]
  · intro knowledgeBase' intentData hfound hempty
    constructor <;> simp [generateResponse, hstrat, hfind, hfound, hempty]

/-- Witness for C10 at a concrete input: the intent `weather` routed to the
knowledge base but absent from it. -/
theorem generateResponse_missing_intent_fallback_witness :
    (({ strategy := "knowledge_base", intent := "weather", confidence := 0.5,
        confidenceLevel := "medium", isSafeIntent := false, shouldUseAI := false,
        matchedPatterns := [], allScores := [] } : RoutingDecision).strategy = "knowledge_base" ∧
      (∀ intent ∈ (KnowledgeBase.mk
          [{ intent := "greeting", patterns := ["hello"], responses := ["Hi!"] }]).intents,
        intent.intent ≠ "weather")) ∧
    (generateResponse
      { strategy := "knowledge_base", intent := "weather", confidence := 0.5,
        confidenceLevel := "medium", isSafeIntent := false, shouldUseAI := false,
        matchedPatterns := [], allScores := [] }
      (KnowledgeBase.mk
        [{ intent := "greeting", patterns := ["hello"], responses := ["Hi!"] }])
      AIOutcome.thrown 0).responseSource = "error_fallback" :=
  ⟨⟨rfl, by decide⟩,
    (generateResponse_missing_intent_fallback
      { strategy := "knowledge_base", intent := "weather", confidence := 0.5,
        confidenceLevel := "medium", isSafeIntent := false, shouldUseAI := false,
        matchedPatterns := [], allScores := [] }
      (KnowledgeBase.mk
        [{ intent := "greeting", patterns := ["hello"], responses := ["Hi!"] }])
      AIOutcome.thrown 0 rfl (by decide)).1⟩

/-! ## Claims about the IntentScorer's selection (`detectIntent`) -/

/-- C9: a named (non-sentinel) detection always carries strictly positive
confidence: `findBestIntent` only ever selects an intent whose score strictly
exceeded the running maximum, which starts at 0. -/
theorem detectIntent_named_positive (processedMessage : String)
    (knowledgeBase : KnowledgeBase)
    (h : (detectIntent processedMessage knowledgeBase).intent ≠ "unknown") :
    0 < (detectIntent processedMessage knowledgeBase).confidence := by
  have hnodup := keys_nodup_scoreStep_foldl processedMessage knowledgeBase.intents
    ([], []) (by simp)
  rcases bestStep_foldl_cases
      ((knowledgeBase.intents.foldl (scoreStep processedMessage) ([], [])).1)
      ((0 : ℚ), (none : Option String)) with hconst | ⟨kv, hmem, heq, hpos⟩
  · exfalso
    apply h
    simp only [detectIntent, findBestIntent, hconst]
    rfl
  · have hmem' : (kv.1, kv.2) ∈
        (knowledgeBase.intents.foldl (scoreStep processedMessage) ([], [])).1 := by
      rwa [Prod.mk.eta]
    have hlookup := lookup_eq_of_keys_nodup hnodup hmem'
    simp only [detectIntent, findBestIntent, heq, Option.some_bind, hlookup,
      Option.getD_some]
    exact hpos

/-- Witness for C9 at a concrete input: the message `"hello"` detects
`greeting`, which indeed has positive confidence. -/
theorem detectIntent_named_positive_witness :
    (detectIntent "hello"
      (KnowledgeBase.mk
        [{ intent := "greeting", patterns := ["hello"], responses := ["Hi!"] }])).intent ≠
      "unknown" ∧
    0 < (detectIntent "hello"
      (KnowledgeBase.mk
        [{ intent := "greeting", patterns := ["hello"], responses := ["Hi!"] }])).confidence := by
  have hint : (detectIntent "hello"
      (KnowledgeBase.mk
        [{ intent := "greeting", patterns := ["hello"], responses := ["Hi!"] }])).intent ≠
      "unknown" := by
    norm_num [detectIntent, scoreStep, scoreIntent, includes, objSet, findBestIntent,
      bestStep, jsOrUnknown, List.lookup]
    decide
  exact ⟨hint,
    detectIntent_named_positive "hello"
      (KnowledgeBase.mk
        [{ intent := "greeting", patterns := ["hello"], responses := ["Hi!"] }]) hint⟩

/-- C4: when every intent scores exactly 0 (in particular, for the empty
normalized message no pattern of a well-formed knowledge base matches), the
detector returns the sentinel `"unknown"` with confidence 0, and the Router
maps every `"unknown"` detection to the AI fallback with `shouldUseAI`. -/
theorem detectIntent_all_zero_unknown (processedMessage : String)
    (knowledgeBase : KnowledgeBase)
    (hzero : ∀ intent ∈ knowledgeBase.intents,
      (scoreIntent processedMessage intent).confidence = 0) :
    (detectIntent processedMessage knowledgeBase).intent = "unknown" ∧
    (detectIntent processedMessage knowledgeBase).confidence = 0 ∧
    (∀ d : DetectionResult, d.intent = "unknown" →
      (routeIntent d).strategy = "ai_fallback" ∧ (routeIntent d).shouldUseAI = true) := by
  have hall : ∀ kv ∈ (knowledgeBase.intents.foldl (scoreStep processedMessage) ([], [])).1,
      kv.2 ≤ (((0 : ℚ), (none : Option String))).1 := by
    intro kv hkv
    rcases mem_scoreStep_foldl_fst processedMessage knowledgeBase.intents ([], []) hkv with
      hbase | ⟨it, hit, heq⟩
    · simp at hbase
    · rw [heq]
      simp [hzero it hit]
  have hconst := bestStep_foldl_const
    ((knowledgeBase.intents.foldl (scoreStep processedMessage) ([], [])).1)
    ((0 : ℚ), (none : Option String)) hall
  refine ⟨?_, ?_, ?_⟩
  · simp only [detectIntent, findBestIntent, hconst]
    rfl
  · simp only [detectIntent, findBestIntent, hconst]
    rfl
  · intro d hd
    simp [routeIntent, hd]

/-- Witness for C4 at a concrete input: the message `"asdkjasd"` matches no
pattern, the detector yields `"unknown"` / 0, and the Router sends an
`"unknown"` detection to the AI fallback. -/
theorem detectIntent_all_zero_unknown_witness :
    (∀ intent ∈ (KnowledgeBase.mk
        [{ intent := "greeting", patterns := ["hello"], responses := ["Hi!"] }]).intents,
      (scoreIntent "asdkjasd" intent).confidence = 0) ∧
    (detectIntent "asdkjasd"
      (KnowledgeBase.mk
        [{ intent := "greeting", patterns := ["hello"], responses := ["Hi!"] }])).intent =
      "unknown" := by
  have hzero : ∀ intent ∈ (KnowledgeBase.mk
      [{ intent := "greeting", patterns := ["hello"], responses := ["Hi!"] }]).intents,
      (scoreIntent "asdkjasd" intent).confidence = 0 := by
    intro intent hintent
    rcases List.mem_singleton.mp hintent with rfl
    norm_num [scoreIntent, includes]
    decide
  exact ⟨hzero,
    (detectIntent_all_zero_unknown "asdkjasd"
      (KnowledgeBase.mk
        [{ intent := "greeting", patterns := ["hello"], responses := ["Hi!"] }]) hzero).1⟩

/-- C2: on a well-formed knowledge base (unique, nonempty intent names)
in which at least one intent scores positively, `detectIntent` selects the
intent with the strictly highest confidence, and when several intents tie on
the maximal confidence the one appearing first in knowledge-base order is
returned: the selected intent is a knowledge-base entry whose score no entry
exceeds and which every earlier entry scores strictly below.  The selection
is deterministic: `detectIntent` is a pure function of its two arguments, so
two runs on the same inputs yield the same intent. -/
theorem detectIntent_selects_first_highest (processedMessage : String)
    (knowledgeBase : KnowledgeBase)
    (hnodup : (knowledgeBase.intents.map Intent.intent).Nodup)
    (hnames : ∀ intent ∈ knowledgeBase.intents, intent.intent ≠ "")
    (hpos : ∃ intent ∈ knowledgeBase.intents,
      0 < (scoreIntent processedMessage intent).confidence) :
    ∃ pre best post, knowledgeBase.intents = pre ++ best :: post ∧
      (detectIntent processedMessage knowledgeBase).intent = best.intent ∧
      (detectIntent processedMessage knowledgeBase).confidence =
        (scoreIntent processedMessage best).confidence ∧
      (∀ intent ∈ knowledgeBase.intents,
        (scoreIntent processedMessage intent).confidence ≤
          (scoreIntent processedMessage best).confidence) ∧
      (∀ intent ∈ pre,
        (scoreIntent processedMessage intent).confidence <
          (scoreIntent processedMessage best).confidence) := by
  have hsc := scoreStep_foldl_eq processedMessage knowledgeBase.intents ([], [])
    (by simp) (by simp) hnodup
  have hScores : (knowledgeBase.intents.foldl (scoreStep processedMessage) ([], [])).1 =
      knowledgeBase.intents.map
        (fun it => (it.intent, (scoreIntent processedMessage it).confidence)) := by
    rw [hsc]
    simp
  have hex : ∃ kv ∈ knowledgeBase.intents.map
      (fun it => (it.intent, (scoreIntent processedMessage it).confidence)),
      (((0 : ℚ), (none : Option String))).1 < kv.2 := by
    obtain ⟨it, hit, hc⟩ := hpos
    exact ⟨_, List.mem_map_of_mem _ hit, hc⟩
  obtain ⟨l₁, kv, l₂, hsplit, heq, hlt, hmax, hbefore⟩ :=
    bestStep_foldl_first_max _ _ hex
  obtain ⟨pre, rest2, hits, hpre, hrest2⟩ := List.map_eq_append_iff.mp hsplit
  obtain ⟨best, post, hrest, hbest, hpost⟩ := List.map_eq_cons_iff.mp hrest2
  have hbmem : best ∈ knowledgeBase.intents := by
    rw [hits, hrest]
    exact List.mem_append_right _ (List.mem_cons_self _ _)
  have hkv1 : kv.1 = best.intent := by rw [← hbest]
  have hkv2 : kv.2 = (scoreIntent processedMessage best).confidence := by rw [← hbest]
  have hkeys : (((knowledgeBase.intents.foldl (scoreStep processedMessage) ([], [])).1).map
      Prod.fst).Nodup := keys_nodup_scoreStep_foldl processedMessage _ _ (by simp)
  have hkvmem : (kv.1, kv.2) ∈
      (knowledgeBase.intents.foldl (scoreStep processedMessage) ([], [])).1 := by
    rw [Prod.mk.eta, hScores, hsplit]
    exact List.mem_append_right _ (List.mem_cons_self _ _)
  have hlookup := lookup_eq_of_keys_nodup hkeys hkvmem
  have hlookup2 : (knowledgeBase.intents.map
      (fun it => (it.intent, (scoreIntent processedMessage it).confidence))).lookup kv.1 =
      some kv.2 := by
    rw [← hScores]
    exact hlookup
  refine ⟨pre, best, post, by rw [hits, hrest], ?_, ?_, ?_, ?_⟩
  · simp only [detectIntent, findBestIntent, hScores, heq]
    simp only [jsOrUnknown, hkv1]
    rw [if_neg (hnames best hbmem)]
  · simp only [detectIntent, findBestIntent, hScores, heq, Option.some_bind, hlookup2,
      Option.getD_some]
    exact hkv2
  · intro intent hintent
    have h := hmax _ (List.mem_map_of_mem
      (fun it => (it.intent, (scoreIntent processedMessage it).confidence)) hintent)
    rw [hkv2] at h
    exact h
  · intro intent hintent
    have hmem : (fun it => (it.intent, (scoreIntent processedMessage it).confidence)) intent
        ∈ l₁ := by
      rw [← hpre]
      exact List.mem_map_of_mem _ hintent
    rcases hbefore _ hmem with hb | hb
    · rw [hkv2] at hb
      exact hb
    · have h0 : (scoreIntent processedMessage intent).confidence ≤ 0 := hb
      rw [hkv2] at hlt
      exact lt_of_le_of_lt h0 hlt

/-- Witness for C2 at a concrete input: on the message `"hello bye"` both
intents score 1/2 (a tie on the maximal confidence) and the first one in
knowledge-base order, `greeting`, is selected. -/
theorem detectIntent_selects_first_highest_witness :
    ((List.map Intent.intent (KnowledgeBase.mk
        [{ intent := "greeting", patterns := ["hello", "hi"], responses := ["a"] },
         { intent := "farewell", patterns := ["bye", "goodbye"], responses := ["b"] }]).intents).Nodup ∧
      (∀ intent ∈ (KnowledgeBase.mk
        [{ intent := "greeting", patterns := ["hello", "hi"], responses := ["a"] },
         { intent := "farewell", patterns := ["bye", "goodbye"], responses := ["b"] }]).intents,
        intent.intent ≠ "") ∧
      (∃ intent ∈ (KnowledgeBase.mk
        [{ intent := "greeting", patterns := ["hello", "hi"], responses := ["a"] },
         { intent := "farewell", patterns := ["bye", "goodbye"], responses := ["b"] }]).intents,
        0 < (scoreIntent "hello bye" intent).confidence)) ∧
    (∃ pre best post, (KnowledgeBase.mk
        [{ intent := "greeting", patterns := ["hello", "hi"], responses := ["a"] },
         { intent := "farewell", patterns := ["bye", "goodbye"], responses := ["b"] }]).intents =
          pre ++ best :: post ∧
      (detectIntent "hello bye" (KnowledgeBase.mk
        [{ intent := "greeting", patterns := ["hello", "hi"], responses := ["a"] },
         { intent := "farewell", patterns := ["bye", "goodbye"], responses := ["b"] }])).intent =
        best.intent ∧
      (detectIntent "hello bye" (KnowledgeBase.mk
        [{ intent := "greeting", patterns := ["hello", "hi"], responses := ["a"] },
         { intent := "farewell", patterns := ["bye", "goodbye"], responses := ["b"] }])).confidence =
        (scoreIntent "hello bye" best).confidence ∧
      (∀ intent ∈ (KnowledgeBase.mk
        [{ intent := "greeting", patterns := ["hello", "hi"], responses := ["a"] },
         { intent := "farewell", patterns := ["bye", "goodbye"], responses := ["b"] }]).intents,
        (scoreIntent "hello bye" intent).confidence ≤
          (scoreIntent "hello bye" best).confidence) ∧
      (∀ intent ∈ pre,
        (scoreIntent "hello bye" intent).confidence <
          (scoreIntent "hello bye" best).confidence)) := by
  have hpos : ∃ intent ∈ (KnowledgeBase.mk
      [{ intent := "greeting", patterns := ["hello", "hi"], responses := ["a"] },
       { intent := "farewell", patterns := ["bye", "goodbye"], responses := ["b"] }]).intents,
      0 < (scoreIntent "hello bye" intent).confidence := by
    refine ⟨{ intent := "greeting", patterns := ["hello", "hi"], responses := ["a"] },
      by decide, ?_⟩
    norm_num [scoreIntent, includes]
    decide
  exact ⟨⟨by decide, by decide, hpos⟩,
    detectIntent_selects_first_highest "hello bye"
      (KnowledgeBase.mk
        [{ intent := "greeting", patterns := ["hello", "hi"], responses := ["a"] },
         { intent := "farewell", patterns := ["bye", "goodbye"], responses := ["b"] }])
      (by decide) (by decide) hpos⟩

/-! ## Claim about the Normalizer (`preprocess`) -/

/-- C8: normalization is idempotent.  `preprocess` lowercases, trims
leading/trailing whitespace and collapses whitespace runs to single spaces,
in that order, and running the normalized output through `preprocess` again
returns it unchanged:
`preprocess(preprocess(x).processed).processed = preprocess(x).processed`. -/
theorem preprocess_idempotent (x : String) :
    (preprocess (preprocess x).processed).processed = (preprocess x).processed := by
  show String.mk (normalizeChars (String.mk (normalizeChars x.data)).data) =
    String.mk (normalizeChars x.data)
  congr 1
  have hlower := toLowerChars_normalizeChars_fix x.data
  calc normalizeChars (normalizeChars x.data)
      = collapseWs (trimChars (toLowerChars (normalizeChars x.data))) := rfl
    _ = collapseWs (trimChars (normalizeChars x.data)) := by rw [hlower]
    _ = collapseWs (collapseWs (trimChars (toLowerChars x.data))) := by
        rw [show normalizeChars x.data =
          collapseWs (trimChars (toLowerChars x.data)) from rfl,
          trimChars_collapseWs_fix]
    _ = collapseWs (trimChars (toLowerChars x.data)) := collapseWs_idem _
    _ = normalizeChars x.data := rfl

end Bingo
